import Mathlib

/-!
Verification of the release_dog daemon (src/main.rs) against its
natural-language specification.

The development shallowly embeds the program's data model and operations:

* `Json` models `serde_json::Value`.
* A `serde_json::Map<String, Value>` (a `BTreeMap` — the `preserve_order`
  feature is off) is modelled as an association list `List (String × Json)`
  kept sorted by key; `insertSorted` mirrors `BTreeMap::insert` and
  `lookupKV` mirrors `BTreeMap::get`.
* `parseJson` models `serde_json::from_str::<Value>` and `renderJson`
  models `serde_json::to_string` / the `Display` instance of `Value`
  (compact rendering with JSON string escaping).
* The poll-cycle logic of `run_daemon` (main.rs lines 53–118) is embedded
  as `stepRepo` / `runCycleAux` / `runCycle`; environment outcomes that the
  code observes (HTTP results, notification display results, file-system
  results) are passed in explicitly as values.
* Fallible Rust code returns `Except`; a Rust `panic!` (from `.unwrap()` /
  `.expect(..)`) is modelled as `none` of an `Option`.
-/

/-- Model of `serde_json::Value`.  Numbers keep their source lexeme (they are
never inspected by the program). Objects hold a key-sorted association list,
mirroring `serde_json::Map` = `BTreeMap<String, Value>`. -/
inductive Json where
  | null : Json
  | bool : Bool → Json
  | num : String → Json
  | str : String → Json
  | arr : List Json → Json
  | obj : List (String × Json) → Json

/-- Lexicographic order on char lists by code point, which coincides with the
byte-wise `Ord` on Rust `String` (UTF-8 preserves code-point order). -/
def charsLt : List Char → List Char → Bool
  | _, [] => false
  | [], _ :: _ => true
  | a :: as, b :: bs =>
    if a.toNat < b.toNat then true
    else if b.toNat < a.toNat then false
    else charsLt as bs

/-- Rust's `Ord for String`, used by `BTreeMap<String, _>`. -/
def strLtB (a b : String) : Bool := charsLt a.data b.data

theorem charsLt_irrefl (l : List Char) : charsLt l l = false := by
  induction l with
  | nil => rfl
  | cons a as ih => simp [charsLt, Nat.lt_irrefl, ih]

theorem charsLt_trans (a b c : List Char) (hab : charsLt a b = true)
    (hbc : charsLt b c = true) : charsLt a c = true := by
  induction a generalizing b c with
  | nil =>
    cases b with
    | nil => simp [charsLt] at hab
    | cons b₀ bs =>
      cases c with
      | nil => simp [charsLt] at hbc
      | cons c₀ cs => rfl
  | cons a₀ as ih =>
    cases b with
    | nil => simp [charsLt] at hab
    | cons b₀ bs =>
      cases c with
      | nil => simp [charsLt] at hbc
      | cons c₀ cs =>
        simp only [charsLt] at hab hbc ⊢
        by_cases h₁ : a₀.toNat < b₀.toNat <;> by_cases h₂ : b₀.toNat < c₀.toNat <;>
          simp only [h₁, h₂, if_true, if_false, ite_true, ite_false] at hab hbc ⊢
        · have : a₀.toNat < c₀.toNat := Nat.lt_trans h₁ h₂
          simp [this]
        · by_cases h₃ : c₀.toNat < b₀.toNat
          · simp [h₃] at hbc
          · have hbc' : b₀.toNat = c₀.toNat := Nat.le_antisymm (Nat.le_of_not_lt h₃) (Nat.le_of_not_lt h₂)
            have : a₀.toNat < c₀.toNat := hbc' ▸ h₁
            simp [this]
        · by_cases h₃ : b₀.toNat < a₀.toNat
          · simp [h₃] at hab
          · have hab' : a₀.toNat = b₀.toNat := Nat.le_antisymm (Nat.le_of_not_lt h₃) (Nat.le_of_not_lt h₁)
            have : a₀.toNat < c₀.toNat := hab' ▸ h₂
            simp [this]
        · by_cases h₃ : b₀.toNat < a₀.toNat
          · simp [h₃] at hab
          · by_cases h₄ : c₀.toNat < b₀.toNat
            · simp [h₄] at hbc
            · have hab' : a₀.toNat = b₀.toNat := Nat.le_antisymm (Nat.le_of_not_lt h₃) (Nat.le_of_not_lt h₁)
              have hbc' : b₀.toNat = c₀.toNat := Nat.le_antisymm (Nat.le_of_not_lt h₄) (Nat.le_of_not_lt h₂)
              have hac : ¬ a₀.toNat < c₀.toNat := by omega
              have hca : ¬ c₀.toNat < a₀.toNat := by omega
              simp only [h₃, if_false, ite_false] at hab
              simp only [h₄, if_false, ite_false] at hbc
              simp only [hac, hca, if_false, ite_false]
              exact ih bs cs hab hbc

theorem charsLt_conn (a b : List Char) (hab : charsLt a b = false)
    (hba : charsLt b a = false) : a = b := by
  induction a generalizing b with
  | nil =>
    cases b with
    | nil => rfl
    | cons b₀ bs => simp [charsLt] at hab
  | cons a₀ as ih =>
    cases b with
    | nil => simp [charsLt] at hba
    | cons b₀ bs =>
      simp only [charsLt] at hab hba
      by_cases h₁ : a₀.toNat < b₀.toNat
      · simp [h₁] at hab
      · by_cases h₂ : b₀.toNat < a₀.toNat
        · simp [h₁, h₂] at hba
        · simp only [h₁, h₂, if_false, ite_false] at hab hba
          have hn : a₀.toNat = b₀.toNat := Nat.le_antisymm (Nat.le_of_not_lt h₂) (Nat.le_of_not_lt h₁)
          have hc : a₀ = b₀ := Char.ext (UInt32.ext hn)
          rw [hc, ih bs hab hba]

theorem strLtB_irrefl (a : String) : strLtB a a = false := charsLt_irrefl a.data

theorem strLtB_trans (a b c : String) (hab : strLtB a b = true) (hbc : strLtB b c = true) :
    strLtB a c = true := charsLt_trans a.data b.data c.data hab hbc

theorem strLtB_conn (a b : String) (hab : strLtB a b = false) (hba : strLtB b a = false) :
    a = b := by
  have h : a.data = b.data := charsLt_conn a.data b.data hab hba
  cases a; cases b; exact congrArg String.mk h

theorem strLtB_asymm (a b : String) (h : strLtB a b = true) : strLtB b a = false := by
  cases hba : strLtB b a
  · rfl
  · have := strLtB_trans a b a h hba
    rw [strLtB_irrefl] at this
    exact absurd this (by simp)

theorem strLtB_of_not_lt_ne (a b : String) (h₁ : strLtB a b = false) (h₂ : a ≠ b) :
    strLtB b a = true := by
  cases hba : strLtB b a
  · exact absurd (strLtB_conn a b h₁ hba) h₂
  · rfl

/-- `BTreeMap::get`: first (and, on sorted lists, only) binding of a key. -/
def lookupKV (l : List (String × Json)) (k : String) : Option Json :=
  match l with
  | [] => none
  | (k₀, v₀) :: rest => if k = k₀ then some v₀ else lookupKV rest k

/-- `BTreeMap::insert` on a key-sorted association list: replaces the binding
if the key is present, otherwise inserts at the sorted position. -/
def insertSorted (k : String) (v : Json) : List (String × Json) → List (String × Json)
  | [] => [(k, v)]
  | (k₀, v₀) :: rest =>
    if strLtB k k₀ then (k, v) :: (k₀, v₀) :: rest
    else if k = k₀ then (k, v) :: rest
    else (k₀, v₀) :: insertSorted k v rest

/-- Keys strictly increase along the list (the `BTreeMap` representation
invariant). -/
def keyLt (a b : String × Json) : Prop := strLtB a.1 b.1 = true

theorem lookupKV_insertSorted_self (l : List (String × Json)) (k : String) (v : Json) :
    lookupKV (insertSorted k v l) k = some v := by
  induction l with
  | nil => simp [insertSorted, lookupKV]
  | cons p rest ih =>
    obtain ⟨k₀, v₀⟩ := p
    cases h₁ : strLtB k k₀
    · by_cases h₂ : k = k₀
      · subst h₂
        simp [insertSorted, h₁, lookupKV]
      · simp [insertSorted, h₁, h₂, lookupKV, ih]
    · simp [insertSorted, h₁, lookupKV]

theorem lookupKV_insertSorted_ne (l : List (String × Json)) (k k' : String) (v : Json)
    (h : k' ≠ k) : lookupKV (insertSorted k v l) k' = lookupKV l k' := by
  induction l with
  | nil => simp [insertSorted, lookupKV, h]
  | cons p rest ih =>
    obtain ⟨k₀, v₀⟩ := p
    cases h₁ : strLtB k k₀
    · by_cases h₂ : k = k₀
      · subst h₂
        simp [insertSorted, h₁, lookupKV, h]
      · by_cases h₃ : k' = k₀ <;> simp [insertSorted, h₁, h₂, lookupKV, h₃, ih]
    · by_cases h₃ : k' = k₀
      · subst h₃
        simp [insertSorted, h₁, lookupKV, h, Ne.symm h]
      · simp [insertSorted, h₁, lookupKV, h, h₃]

theorem lookupKV_mem_keys (l : List (String × Json)) (k : String) (v : Json)
    (h : lookupKV l k = some v) : k ∈ l.map Prod.fst := by
  induction l with
  | nil => simp [lookupKV] at h
  | cons p rest ih =>
    obtain ⟨k₀, v₀⟩ := p
    by_cases h₀ : k = k₀
    · simp [h₀]
    · simp only [lookupKV, h₀, if_false] at h
      simpa using Or.inr (ih h)

theorem mem_insertSorted (l : List (String × Json)) (k : String) (v : Json) (b : String × Json)
    (hb : b ∈ insertSorted k v l) : b = (k, v) ∨ b ∈ l := by
  induction l with
  | nil => simpa [insertSorted] using hb
  | cons p rest ih =>
    obtain ⟨k₀, v₀⟩ := p
    cases h₁ : strLtB k k₀
    · by_cases h₂ : k = k₀
      · subst h₂
        simp only [insertSorted, h₁, Bool.false_eq_true, if_false, if_true, eq_self_iff_true] at hb
        rcases List.mem_cons.mp hb with hb | hb
        · exact Or.inl hb
        · exact Or.inr (List.mem_cons_of_mem _ hb)
      · simp only [insertSorted, h₁, Bool.false_eq_true, if_false, h₂] at hb
        rcases List.mem_cons.mp hb with hb | hb
        · exact Or.inr (hb ▸ List.mem_cons_self _ _)
        · rcases ih hb with hb' | hb'
          · exact Or.inl hb'
          · exact Or.inr (List.mem_cons_of_mem _ hb')
    · simp only [insertSorted, h₁, if_true] at hb
      simpa using hb

theorem pairwise_insertSorted (l : List (String × Json)) (k : String) (v : Json)
    (h : l.Pairwise keyLt) : (insertSorted k v l).Pairwise keyLt := by
  induction l with
  | nil => simp [insertSorted, keyLt]
  | cons p rest ih =>
    obtain ⟨k₀, v₀⟩ := p
    rw [List.pairwise_cons] at h
    obtain ⟨hhead, htail⟩ := h
    cases h₁ : strLtB k k₀
    · by_cases h₂ : k = k₀
      · subst h₂
        simp only [insertSorted, h₁, Bool.false_eq_true, if_false, if_pos rfl]
        exact List.Pairwise.cons hhead htail
      · simp only [insertSorted, h₁, Bool.false_eq_true, if_false, h₂]
        refine List.Pairwise.cons ?_ (ih htail)
        intro b hb
        have hk₀ : strLtB k₀ k = true := strLtB_of_not_lt_ne k k₀ h₁ h₂
        rcases mem_insertSorted rest k v b hb with hb' | hb'
        · subst hb'; exact hk₀
        · exact hhead b hb'
    · simp only [insertSorted, h₁, if_true]
      refine List.Pairwise.cons ?_ (List.Pairwise.cons hhead htail)
      intro b hb
      rcases List.mem_cons.mp hb with hb | hb
      · subst hb; exact h₁
      · exact strLtB_trans k k₀ b.1 h₁ (hhead b hb)

theorem insertSorted_lookup_noop (l : List (String × Json)) (k : String) (v : Json)
    (hs : l.Pairwise keyLt) (h : lookupKV l k = some v) : insertSorted k v l = l := by
  induction l with
  | nil => simp [lookupKV] at h
  | cons p rest ih =>
    obtain ⟨k₀, v₀⟩ := p
    rw [List.pairwise_cons] at hs
    obtain ⟨hhead, htail⟩ := hs
    by_cases h₂ : k = k₀
    · subst h₂
      have h' : v₀ = v := by simpa [lookupKV] using h
      simp [insertSorted, strLtB_irrefl, h']
    · simp only [lookupKV, h₂, if_false] at h
      have hmem : k ∈ rest.map Prod.fst := lookupKV_mem_keys rest k v h
      obtain ⟨b, hb, hbk⟩ := List.mem_map.mp hmem
      have hk₀ : strLtB k₀ k = true := hbk ▸ hhead b hb
      have h₁ : strLtB k k₀ = false := strLtB_asymm k₀ k hk₀
      simp [insertSorted, h₁, h₂, ih htail h]

/-- JSON whitespace skipping (space, tab, newline, carriage return), as in
`serde_json`. -/
def skipWs : List Char → List Char
  | c :: cs => if c = ' ' ∨ c = '\t' ∨ c = '\n' ∨ c = '\r' then skipWs cs else c :: cs
  | [] => []

/-- Value of a hexadecimal digit. -/
def hexVal (c : Char) : Option Nat :=
  if '0' ≤ c ∧ c ≤ '9' then some (c.toNat - '0'.toNat)
  else if 'a' ≤ c ∧ c ≤ 'f' then some (c.toNat - 'a'.toNat + 10)
  else if 'A' ≤ c ∧ c ≤ 'F' then some (c.toNat - 'A'.toNat + 10)
  else none

/-- Four hex digits of a `\uXXXX` escape. -/
def parseHex4 : List Char → Option (Nat × List Char)
  | a :: b :: c :: d :: rest =>
    match hexVal a, hexVal b, hexVal c, hexVal d with
    | some x, some y, some z, some w => some (((x * 16 + y) * 16 + z) * 16 + w, rest)
    | _, _, _, _ => none
  | _ => none

/-- Body of a JSON string after the opening quote: returns the decoded
characters and the input remaining after the closing quote.  Handles the JSON
escapes (including surrogate pairs) and rejects raw control characters,
mirroring `serde_json`'s string parsing. -/
def parseStrChars : Nat → List Char → Option (List Char × List Char)
  | 0, _ => none
  | _ + 1, [] => none
  | fuel + 1, c :: cs =>
    if c = '"' then some ([], cs)
    else if c = '\\' then
      match cs with
      | [] => none
      | e :: cs₁ =>
        let cont := fun (ch : Char) (rest : List Char) =>
          match parseStrChars fuel rest with
          | some (out, rem) => some (ch :: out, rem)
          | none => none
        if e = '"' then cont '"' cs₁
        else if e = '\\' then cont '\\' cs₁
        else if e = '/' then cont '/' cs₁
        else if e = 'b' then cont '\x08' cs₁
        else if e = 'f' then cont '\x0c' cs₁
        else if e = 'n' then cont '\n' cs₁
        else if e = 'r' then cont '\r' cs₁
        else if e = 't' then cont '\t' cs₁
        else if e = 'u' then
          match parseHex4 cs₁ with
          | none => none
          | some (n, cs₂) =>
            if 0xD800 ≤ n ∧ n ≤ 0xDBFF then
              match cs₂ with
              | '\\' :: 'u' :: cs₃ =>
                match parseHex4 cs₃ with
                | some (m, cs₄) =>
                  if 0xDC00 ≤ m ∧ m ≤ 0xDFFF then
                    cont (Char.ofNat (0x10000 + (n - 0xD800) * 0x400 + (m - 0xDC00))) cs₄
                  else none
                | none => none
              | _ => none
            else if 0xDC00 ≤ n ∧ n ≤ 0xDFFF then none
            else cont (Char.ofNat n) cs₂
        else none
    else if c.toNat < 0x20 then none
    else
      match parseStrChars fuel cs with
      | some (out, rem) => some (c :: out, rem)
      | none => none

/-- Longest prefix of decimal digits. -/
def takeDigits : List Char → List Char × List Char
  | [] => ([], [])
  | c :: rest =>
    if c.isDigit then
      match takeDigits rest with
      | (ds, r) => (c :: ds, r)
    else ([], c :: rest)

/-- Integer part of a JSON number: `0`, or a nonzero digit followed by
digits. -/
def parseIntPart : List Char → Option (List Char × List Char)
  | [] => none
  | '0' :: rest => some (['0'], rest)
  | c :: rest =>
    if c.isDigit then
      match takeDigits rest with
      | (ds, r) => some (c :: ds, r)
    else none

/-- Optional fraction part `.digits` of a JSON number. -/
def parseFrac : List Char → Option (List Char × List Char)
  | '.' :: rest =>
    (match takeDigits rest with
     | ([], _) => none
     | (ds, r) => some ('.' :: ds, r))
  | cs => some ([], cs)

/-- Optional exponent part of a JSON number. -/
def parseExp : List Char → Option (List Char × List Char)
  | [] => some ([], [])
  | c :: rest =>
    if c = 'e' ∨ c = 'E' then
      match rest with
      | [] => none
      | s :: rest₁ =>
        if s = '+' ∨ s = '-' then
          match takeDigits rest₁ with
          | ([], _) => none
          | (ds, r) => some (c :: s :: ds, r)
        else
          match takeDigits rest with
          | ([], _) => none
          | (ds, r) => some (c :: ds, r)
    else some ([], c :: rest)

/-- A JSON number lexeme (sign, integer part, fraction, exponent). -/
def parseNumber (cs : List Char) : Option (List Char × List Char) :=
  match (match cs with | '-' :: rest => (['-'], rest) | _ => (([] : List Char), cs)) with
  | (sign, cs₀) =>
    match parseIntPart cs₀ with
    | none => none
    | some (ip, cs₁) =>
      match parseFrac cs₁ with
      | none => none
      | some (fp, cs₂) =>
        match parseExp cs₂ with
        | none => none
        | some (ep, cs₃) => some (sign ++ ip ++ fp ++ ep, cs₃)

/-- Recursive-descent parsing task: a value, the tail of an array, or the tail
of an object.  A single fuel-indexed function keeps the recursion structural,
so that the parser reduces definitionally on concrete inputs. -/
inductive PTask where
  | value : List Char → PTask
  | elems : List Char → List Json → PTask
  | members : List Char → List (String × Json) → PTask

/-- The recursive-descent JSON parser, modelling `serde_json`'s grammar.
Object members are accumulated with `insertSorted`, mirroring collection into
a `BTreeMap` (later duplicates win).  Fuel is decremented on every recursive
call; any fuel of at least the input length plus two is sufficient. -/
def parseF : Nat → PTask → Option (Json × List Char)
  | 0, _ => none
  | fuel + 1, PTask.value cs =>
    (match skipWs cs with
     | [] => none
     | c :: rest =>
       if c = 'n' then
         match rest with
         | 'u' :: 'l' :: 'l' :: r => some (Json.null, r)
         | _ => none
       else if c = 't' then
         match rest with
         | 'r' :: 'u' :: 'e' :: r => some (Json.bool true, r)
         | _ => none
       else if c = 'f' then
         match rest with
         | 'a' :: 'l' :: 's' :: 'e' :: r => some (Json.bool false, r)
         | _ => none
       else if c = '"' then
         match parseStrChars (rest.length + 1) rest with
         | some (out, r) => some (Json.str (String.mk out), r)
         | none => none
       else if c = '[' then
         match skipWs rest with
         | ']' :: r => some (Json.arr [], r)
         | cs₁ => parseF fuel (PTask.elems cs₁ [])
       else if c = '\x7b' then
         match skipWs rest with
         | '\x7d' :: r => some (Json.obj [], r)
         | cs₁ => parseF fuel (PTask.members cs₁ [])
       else if c = '-' ∨ c.isDigit then
         match parseNumber (c :: rest) with
         | some (lex, r) => some (Json.num (String.mk lex), r)
         | none => none
       else none)
  | fuel + 1, PTask.elems cs acc =>
    (match parseF fuel (PTask.value cs) with
     | none => none
     | some (v, r) =>
       match skipWs r with
       | ',' :: r₁ => parseF fuel (PTask.elems r₁ (acc ++ [v]))
       | ']' :: r₁ => some (Json.arr (acc ++ [v]), r₁)
       | _ => none)
  | fuel + 1, PTask.members cs acc =>
    (match skipWs cs with
     | '"' :: r =>
       match parseStrChars (r.length + 1) r with
       | none => none
       | some (kcs, r₁) =>
         match skipWs r₁ with
         | ':' :: r₂ =>
           (match parseF fuel (PTask.value r₂) with
            | none => none
            | some (v, r₃) =>
              match skipWs r₃ with
              | ',' :: r₄ => parseF fuel (PTask.members r₄ (insertSorted (String.mk kcs) v acc))
              | '\x7d' :: r₄ => some (Json.obj (insertSorted (String.mk kcs) v acc), r₄)
              | _ => none)
         | _ => none
     | _ => none)

/-- `serde_json::from_str::<Value>`: parse one JSON document; trailing
non-whitespace input is an error. -/
def parseJson (s : String) : Option Json :=
  match parseF (s.data.length + 2) (PTask.value s.data) with
  | some (j, rest) => if skipWs rest = [] then some j else none
  | none => none

/-- Lower-case hex digit, as used by `serde_json` control-character escapes. -/
def hexDigit (n : Nat) : Char :=
  if n < 10 then Char.ofNat ('0'.toNat + n) else Char.ofNat ('a'.toNat + n - 10)

/-- `serde_json` string escaping: `"` and `\` get a backslash, the common
control characters use their short escapes, other control characters use
`\u00XX`, and everything else is emitted verbatim. -/
def escapeChar (c : Char) : List Char :=
  if c = '"' then ['\\', '"']
  else if c = '\\' then ['\\', '\\']
  else if c = '\x08' then ['\\', 'b']
  else if c = '\x0c' then ['\\', 'f']
  else if c = '\n' then ['\\', 'n']
  else if c = '\r' then ['\\', 'r']
  else if c = '\t' then ['\\', 't']
  else if c.toNat < 0x20 then ['\\', 'u', '0', '0', hexDigit (c.toNat / 16), hexDigit (c.toNat % 16)]
  else [c]

/-- Escape a whole string. -/
def escapeString (s : String) : String :=
  String.mk (s.data.foldr (fun c acc => escapeChar c ++ acc) [])

mutual
/-- `serde_json::to_string` and the `Display` instance of `Value` (both render
the compact form). -/
def renderJson : Json → String
  | Json.null => "null"
  | Json.bool true => "true"
  | Json.bool false => "false"
  | Json.num s => s
  | Json.str s => "\"" ++ escapeString s ++ "\""
  | Json.arr xs => "[" ++ renderElems xs ++ "]"
  | Json.obj kvs => "\x7b" ++ renderMembers kvs ++ "\x7d"
/-- Comma-separated rendering of array elements. -/
def renderElems : List Json → String
  | [] => ""
  | [x] => renderJson x
  | x :: y :: rest => renderJson x ++ "," ++ renderElems (y :: rest)
/-- Comma-separated rendering of object members. -/
def renderMembers : List (String × Json) → String
  | [] => ""
  | [(k, v)] => "\"" ++ escapeString k ++ "\":" ++ renderJson v
  | (k, v) :: p :: rest =>
    "\"" ++ escapeString k ++ "\":" ++ renderJson v ++ "," ++ renderMembers (p :: rest)
end

/-- `Value::as_str` (main.rs line 85). -/
def Json.asStr : Json → Option String
  | Json.str s => some s
  | _ => none

/-- `Value::as_object` (main.rs line 49). -/
def Json.asObj : Json → Option (List (String × Json))
  | Json.obj kvs => some kvs
  | _ => none

/-- `Value::as_array` (main.rs line 82). -/
def Json.asArr : Json → Option (List Json)
  | Json.arr xs => some xs
  | _ => none

/-- `value[key]` on a shared reference (main.rs line 85): yields `Null` when
the value is not an object or the key is absent. -/
def jsonIndex (j : Json) (k : String) : Json :=
  match j with
  | Json.obj kvs => (lookupKV kvs k).getD Json.null
  | _ => Json.null

/-- `Value == &str` (`PartialEq<&str> for Value`), used by
`old_release != tag_name` on main.rs line 88: true exactly for an equal JSON
string. -/
def jsonEqStr (j : Json) (s : String) : Bool :=
  match j with
  | Json.str s₀ => s₀ == s
  | _ => false

/-- `read_cache_file` (main.rs lines 121–144), at the level of the file's
content.  The function's directory resolution, file creation (writing `"{}"`
for a missing file) and read step are I/O plumbing that either panics or
produces the content string modelled here; `serde_json::from_str` errors are
converted to `Err` (lines 140–143). -/
def read_cache_file (content : String) : Except String Json :=
  match parseJson content with
  | some json => Except.ok json
  | none => Except.error "parse error"

/-- The cache-load step of `run_daemon` (main.rs lines 48–51):
`Ok(json) => json.as_object().unwrap().clone()`, `Err(_) =>` empty map.
`none` models the `.unwrap()` panic on a non-object JSON document. -/
def loadCache (content : String) : Option (List (String × Json)) :=
  match read_cache_file content with
  | Except.ok json => json.asObj
  | Except.error _ => some []

/-- Outcome of the HTTP fetch for one repository (main.rs lines 60–79):
an error sending the request, an error reading the response text, or the
response body text. -/
inductive FetchOutcome where
  | sendErr : FetchOutcome
  | textErr : FetchOutcome
  | body : String → FetchOutcome

/-- Per-repository processing of a response body (main.rs lines 81–106),
acting on the in-memory cache `release_info` and the cycle's Change Set
`new_release_info`.  Returns the updated pair, or `none` for the
`releases.get(0).unwrap()` panic on an empty array (line 84). -/
def stepRepo (release_info new_release_info : List (String × Json)) (repo : String)
    (body : String) : Option (List (String × Json) × List (String × Json)) :=
  match parseJson body with
  | some json =>
    match json with
    | Json.arr releases =>
      match releases.head? with
      | some newest =>
        match (jsonIndex newest "tag_name").asStr with
        | some tag_name =>
          some (insertSorted repo (Json.str tag_name) release_info,
            match lookupKV release_info repo with
            | some old_release =>
              if jsonEqStr old_release tag_name then new_release_info
              else insertSorted repo (Json.str tag_name) new_release_info
            | none => new_release_info)
        | none => some (release_info, new_release_info)
      | none => none
    | _ => some (release_info, new_release_info)
  | none => some (release_info, new_release_info)

/-- One iteration of the `for repo in &repos` loop (main.rs lines 56–107):
send/text errors are logged and skipped (`continue`), otherwise the body is
processed by `stepRepo`. -/
def stepItem (release_info new_release_info : List (String × Json))
    (item : String × FetchOutcome) : Option (List (String × Json) × List (String × Json)) :=
  match item.2 with
  | FetchOutcome.sendErr => some (release_info, new_release_info)
  | FetchOutcome.textErr => some (release_info, new_release_info)
  | FetchOutcome.body b => stepRepo release_info new_release_info item.1 b

/-- The repository pass of one poll cycle, over the remaining repositories
paired with their fetch outcomes.  `none` propagates a panic. -/
def runCycleAux (release_info new_release_info : List (String × Json)) :
    List (String × FetchOutcome) → Option (List (String × Json) × List (String × Json))
  | [] => some (release_info, new_release_info)
  | item :: rest =>
    match stepItem release_info new_release_info item with
    | some p => runCycleAux p.1 p.2 rest
    | none => none

/-- One poll cycle's repository pass (main.rs lines 55–107): the Change Set
`new_release_info` starts empty each cycle. -/
def runCycle (release_info : List (String × Json)) (items : List (String × FetchOutcome)) :
    Option (List (String × Json) × List (String × Json)) :=
  runCycleAux release_info [] items

/-- The fetch outcomes of a cycle in which each configured repository `r`
observes the fixed upstream state `fetch r`. -/
def mkItems (repos : List String) (fetch : String → FetchOutcome) :
    List (String × FetchOutcome) :=
  repos.map (fun r => (r, fetch r))

/-- The notification body built by `release_notify` (main.rs lines 165–169):
`format!("{}: {}\n", repo, release)` where `release : Value` is shown via its
`Display` instance, i.e. `renderJson`. -/
def notifyBody (changes : List (String × Json)) : String :=
  changes.foldl (fun content p => content ++ (p.1 ++ ": " ++ renderJson p.2 ++ "\n")) ""

/-- The notification handed to the host environment (main.rs lines 170–174). -/
structure ShownNotification where
  summary : String
  body : String
  icon : String

/-- `release_notify` (main.rs lines 164–177): builds the body, then
`.show().unwrap()` — a display failure (`showRes = error`) panics (`none`);
on success the shown notification is returned and the function's result is
`Ok(())`. -/
def release_notify (changes : List (String × Json)) (showRes : Except String Unit) :
    Option ShownNotification :=
  match showRes with
  | Except.ok _ => some (ShownNotification.mk "New release" (notifyBody changes) "librewolf")
  | Except.error _ => none

/-- The notify step of the poll loop (main.rs lines 109–111):
`if !new_release_info.is_empty() { release_notify(new_release_info).await?; }`.
`none` models a panic escaping `release_notify`. -/
def notifyStep (new_release_info : List (String × Json)) (showRes : Except String Unit) :
    Option Unit :=
  if new_release_info.isEmpty then some ()
  else
    match release_notify new_release_info showRes with
    | some _ => some ()
    | none => none

/-- File-system outcomes observed by `write_cache_file`: the result of
`cache_dir()`, of `OpenOptions::open`, and of `write_all`. -/
structure WriteEnv where
  cacheDir : Option String
  openRes : Except String Unit
  writeRes : Except String Unit

/-- `OpenOptions::new().write(true).create(true)` opens WITHOUT truncation
(main.rs lines 152–156): writing `new` over previous content `old` replaces
a prefix and leaves any longer tail of `old` in place. -/
def overwriteNoTruncate (old new : String) : String :=
  String.mk (new.data ++ old.data.drop new.data.length)

/-- `write_cache_file` (main.rs lines 146–162).  `cache_dir().expect(..)` and
`.open(..).unwrap()` panic (`none`) on failure; a `write_all` error is
returned as `Err`; on success the file holds the serialized map written over
the previous content without truncation.  A failed `write_all` is modelled as
leaving the previous content. -/
def write_cache_file (env : WriteEnv) (old : String) (json : List (String × Json)) :
    Option (Except String String) :=
  match env.cacheDir with
  | none => none
  | some _ =>
    match env.openRes with
    | Except.error _ => none
    | Except.ok _ =>
      match env.writeRes with
      | Except.ok _ => some (Except.ok (overwriteNoTruncate old (renderJson (Json.obj json))))
      | Except.error e => some (Except.error e)

/-- The save step of the poll loop (main.rs lines 113–116): a returned `Err`
is only logged (`error!`) and the loop continues; `none` propagates a panic
from inside `write_cache_file`.  The result is the cache file's content after
the step. -/
def saveStep (env : WriteEnv) (old : String) (json : List (String × Json)) : Option String :=
  match write_cache_file env old json with
  | none => none
  | some (Except.ok content) => some content
  | some (Except.error _) => some old

/-- One full iteration of the `loop` in `run_daemon` (main.rs lines 53–118):
repository pass, then notify step, then save step.  `none` means the process
panicked during the iteration; `some (cache, fileContent)` means the loop
reaches the end-of-cycle sleep with that in-memory cache and on-disk cache
file content. -/
def loopIter (release_info : List (String × Json)) (items : List (String × FetchOutcome))
    (showRes : Except String Unit) (env : WriteEnv) (old : String) :
    Option (List (String × Json) × String) :=
  match runCycle release_info items with
  | none => none
  | some (release_info₁, new_release_info) =>
    match notifyStep new_release_info showRes with
    | none => none
    | some _ =>
      match saveStep env old release_info₁ with
      | none => none
      | some content => some (release_info₁, content)

/-- How one repository's processing in a cycle behaves: skipped (fetch error,
parse error, non-array body, or missing/non-string tag), panic (empty
releases array), or a successfully observed tag. -/
inductive StepKind where
  | skip : StepKind
  | panic : StepKind
  | tag : String → StepKind

/-- Classification of a response body, following the same decision structure
as main.rs lines 81–106. -/
def classifyBody (body : String) : StepKind :=
  match parseJson body with
  | some json =>
    match json with
    | Json.arr releases =>
      match releases.head? with
      | some newest =>
        match (jsonIndex newest "tag_name").asStr with
        | some tag_name => StepKind.tag tag_name
        | none => StepKind.skip
      | none => StepKind.panic
    | _ => StepKind.skip
  | none => StepKind.skip

/-- Classification of a fetch outcome. -/
def classify : FetchOutcome → StepKind
  | FetchOutcome.sendErr => StepKind.skip
  | FetchOutcome.textErr => StepKind.skip
  | FetchOutcome.body b => classifyBody b

theorem stepRepo_spec (c n : List (String × Json)) (r b : String) :
    stepRepo c n r b =
      match classifyBody b with
      | StepKind.panic => none
      | StepKind.skip => some (c, n)
      | StepKind.tag t =>
        some (insertSorted r (Json.str t) c,
          match lookupKV c r with
          | some old => if jsonEqStr old t then n else insertSorted r (Json.str t) n
          | none => n) := by
  unfold stepRepo classifyBody
  cases hp : parseJson b with
  | none => rfl
  | some j =>
    cases j with
    | null => rfl
    | bool b' => rfl
    | num s => rfl
    | str s => rfl
    | obj kvs => rfl
    | arr xs =>
      cases xs with
      | nil => rfl
      | cons x rest =>
        cases hx : (jsonIndex x "tag_name").asStr <;> simp only [List.head?_cons, hx]

theorem stepItem_spec (c n : List (String × Json)) (r : String) (f : FetchOutcome) :
    stepItem c n (r, f) =
      match classify f with
      | StepKind.panic => none
      | StepKind.skip => some (c, n)
      | StepKind.tag t =>
        some (insertSorted r (Json.str t) c,
          match lookupKV c r with
          | some old => if jsonEqStr old t then n else insertSorted r (Json.str t) n
          | none => n) := by
  cases f with
  | sendErr => rfl
  | textErr => rfl
  | body b => exact stepRepo_spec c n r b

/-- Keys not fetched in a cycle keep their cache and Change Set bindings. -/
theorem runCycleAux_untouched (items : List (String × FetchOutcome)) :
    ∀ (c n c' n' : List (String × Json)) (r : String),
      runCycleAux c n items = some (c', n') → r ∉ items.map Prod.fst →
      lookupKV c' r = lookupKV c r ∧ lookupKV n' r = lookupKV n r := by
  induction items with
  | nil =>
    intro c n c' n' r h _
    simp only [runCycleAux, Option.some.injEq, Prod.mk.injEq] at h
    rw [← h.1, ← h.2]
    exact ⟨rfl, rfl⟩
  | cons item rest ih =>
    intro c n c' n' r h hr
    obtain ⟨r₀, f₀⟩ := item
    simp only [List.map_cons, List.mem_cons, not_or] at hr
    obtain ⟨hr₀, hrest⟩ := hr
    simp only [runCycleAux, stepItem_spec] at h
    cases hcf : classify f₀ with
    | panic => rw [hcf] at h; exact absurd h (by simp)
    | skip =>
      rw [hcf] at h
      exact ih c n c' n' r h hrest
    | tag t =>
      rw [hcf] at h
      obtain ⟨h1, h2⟩ := ih _ _ _ n' r h hrest
      refine ⟨?_, ?_⟩
      · rw [h1, lookupKV_insertSorted_ne c r₀ r (Json.str t) hr₀]
      · rw [h2]
        cases hl : lookupKV c r₀ with
        | none => simp only [hl]
        | some old =>
          simp only [hl]
          cases he : jsonEqStr old t
          · simp only [he, Bool.false_eq_true, if_false,
              lookupKV_insertSorted_ne n r₀ r (Json.str t) hr₀]
          · simp only [he, if_true]

/-- If any fetched repository's body classifies as a panic, the repository
pass panics. -/
theorem runCycleAux_panicElem (items : List (String × FetchOutcome)) :
    ∀ (c n : List (String × Json)) (r : String) (f : FetchOutcome),
      (r, f) ∈ items → classify f = StepKind.panic → runCycleAux c n items = none := by
  induction items with
  | nil => intro c n r f h _; simp at h
  | cons item rest ih =>
    intro c n r f hmem hpanic
    obtain ⟨r₀, f₀⟩ := item
    rcases List.mem_cons.mp hmem with heq | hmem'
    · obtain ⟨he1, he2⟩ := Prod.mk.injEq .. ▸ heq
      simp only [runCycleAux, stepItem_spec, he2 ▸ hpanic]
    · simp only [runCycleAux, stepItem_spec]
      cases hcf : classify f₀ with
      | panic => rfl
      | skip => exact ih c n r f hmem' hpanic
      | tag t => exact ih _ _ r f hmem' hpanic

/-- Effect of a completed cycle on the bindings of a fetched repository,
assuming the configured repositories are distinct. -/
theorem runCycleAux_processed (items : List (String × FetchOutcome)) :
    ∀ (c n c' n' : List (String × Json)) (r : String) (f : FetchOutcome),
      (items.map Prod.fst).Nodup → (r, f) ∈ items →
      runCycleAux c n items = some (c', n') →
      (match classify f with
       | StepKind.panic => False
       | StepKind.skip => lookupKV c' r = lookupKV c r ∧ lookupKV n' r = lookupKV n r
       | StepKind.tag t =>
         lookupKV c' r = some (Json.str t) ∧
         lookupKV n' r = (match lookupKV c r with
           | some old => if jsonEqStr old t then lookupKV n r else some (Json.str t)
           | none => lookupKV n r)) := by
  induction items with
  | nil => intro c n c' n' r f _ h _; simp at h
  | cons item rest ih =>
    intro c n c' n' r f hnd hmem hrun
    obtain ⟨r₀, f₀⟩ := item
    simp only [List.map_cons, List.nodup_cons] at hnd
    obtain ⟨hr₀rest, hndrest⟩ := hnd
    simp only [runCycleAux, stepItem_spec] at hrun
    rcases List.mem_cons.mp hmem with heq | hmem'
    · have he1 : r = r₀ := congrArg Prod.fst heq
      have he2 : f = f₀ := congrArg Prod.snd heq
      subst he1; subst he2
      cases hcf : classify f with
      | panic => rw [hcf] at hrun; exact absurd hrun (by simp)
      | skip =>
        rw [hcf] at hrun
        exact runCycleAux_untouched rest c n c' n' r hrun hr₀rest
      | tag t =>
        rw [hcf] at hrun
        obtain ⟨h1, h2⟩ := runCycleAux_untouched rest _ _ c' n' r hrun hr₀rest
        refine ⟨?_, ?_⟩
        · rw [h1, lookupKV_insertSorted_self]
        · rw [h2]
          cases hl : lookupKV c r with
          | none => simp only [hl]
          | some old =>
            simp only [hl]
            cases he : jsonEqStr old t
            · simp only [he, Bool.false_eq_true, if_false, lookupKV_insertSorted_self]
            · simp only [he, if_true]
    · have hrmem : r ∈ rest.map Prod.fst :=
        List.mem_map.mpr ⟨(r, f), hmem', rfl⟩
      have hrne : r ≠ r₀ := fun he => hr₀rest (he ▸ hrmem)
      cases hcf : classify f₀ with
      | panic => rw [hcf] at hrun; exact absurd hrun (by simp)
      | skip =>
        rw [hcf] at hrun
        exact ih c n c' n' r f hndrest hmem' hrun
      | tag t =>
        rw [hcf] at hrun
        have hmain := ih _ _ c' n' r f hndrest hmem' hrun
        have hceq : lookupKV (insertSorted r₀ (Json.str t) c) r = lookupKV c r :=
          lookupKV_insertSorted_ne c r₀ r (Json.str t) hrne
        have hneq : lookupKV (match lookupKV c r₀ with
            | some old => if jsonEqStr old t then n else insertSorted r₀ (Json.str t) n
            | none => n) r = lookupKV n r := by
          cases hl : lookupKV c r₀ with
          | none => simp only [hl]
          | some old =>
            simp only [hl]
            cases he : jsonEqStr old t
            · simp only [he, Bool.false_eq_true, if_false,
                lookupKV_insertSorted_ne n r₀ r (Json.str t) hrne]
            · simp only [he, if_true]
        cases hcf' : classify f with
        | panic => rw [hcf'] at hmain; exact hmain
        | skip =>
          rw [hcf'] at hmain
          rw [hceq, hneq] at hmain
          exact hmain
        | tag t' =>
          rw [hcf'] at hmain
          rw [hceq, hneq] at hmain
          exact hmain

theorem mkItems_keys (repos : List String) (fetch : String → FetchOutcome) :
    (mkItems repos fetch).map Prod.fst = repos := by
  induction repos with
  | nil => rfl
  | cons r rest ih => simp [mkItems] at ih ⊢; exact ih

/-- After a completed repository pass over fixed upstream state, the cache is
still sorted, no visited repository classified as a panic, and every
successfully observed tag is the visited repository's cache binding. -/
theorem firstCycle_tags (repos : List String) (fetch : String → FetchOutcome) :
    ∀ (c n c' n' : List (String × Json)),
      c.Pairwise keyLt →
      runCycleAux c n (mkItems repos fetch) = some (c', n') →
      c'.Pairwise keyLt ∧
      ∀ r, r ∈ repos →
        classify (fetch r) ≠ StepKind.panic ∧
        ∀ t, classify (fetch r) = StepKind.tag t → lookupKV c' r = some (Json.str t) := by
  induction repos with
  | nil =>
    intro c n c' n' hs h
    simp only [mkItems, List.map_nil, runCycleAux, Option.some.injEq, Prod.mk.injEq] at h
    refine ⟨h.1 ▸ hs, ?_⟩
    intro r hr
    simp at hr
  | cons r₀ rest ih =>
    intro c n c' n' hs h
    simp only [mkItems, List.map_cons] at h
    simp only [runCycleAux, stepItem_spec] at h
    cases hcf : classify (fetch r₀) with
    | panic => rw [hcf] at h; exact absurd h (by simp)
    | skip =>
      rw [hcf] at h
      obtain ⟨hs', hprop⟩ := ih c n c' n' hs h
      refine ⟨hs', ?_⟩
      intro r hr
      rcases List.mem_cons.mp hr with hr | hr
      · subst hr
        refine ⟨by simp [hcf], ?_⟩
        intro t ht
        rw [ht] at hcf
        exact absurd hcf.symm (by simp)
      · exact hprop r hr
    | tag t₀ =>
      rw [hcf] at h
      have hs₁ : (insertSorted r₀ (Json.str t₀) c).Pairwise keyLt :=
        pairwise_insertSorted c r₀ (Json.str t₀) hs
      obtain ⟨hs', hprop⟩ := ih _ _ c' n' hs₁ h
      refine ⟨hs', ?_⟩
      intro r hr
      rcases List.mem_cons.mp hr with hr | hr
      · subst hr
        refine ⟨by simp [hcf], ?_⟩
        intro t ht
        rw [hcf] at ht
        have ht₀ : t₀ = t := by injection ht
        subst ht₀
        by_cases hmem : r ∈ rest
        · exact (hprop r hmem).2 t₀ hcf
        · have hnotkeys : r ∉ (mkItems rest fetch).map Prod.fst := by
            rw [mkItems_keys]; exact hmem
          have := runCycleAux_untouched (mkItems rest fetch) _ _ c' n' r h hnotkeys
          rw [this.1, lookupKV_insertSorted_self]
      · exact hprop r hr

/-- A repository pass in which every successful observation already matches
the (sorted) cache leaves the cache untouched and records nothing in the
Change Set. -/
theorem secondCycle_id (repos : List String) (fetch : String → FetchOutcome) :
    ∀ (c n : List (String × Json)),
      c.Pairwise keyLt →
      (∀ r, r ∈ repos →
        classify (fetch r) ≠ StepKind.panic ∧
        ∀ t, classify (fetch r) = StepKind.tag t → lookupKV c r = some (Json.str t)) →
      runCycleAux c n (mkItems repos fetch) = some (c, n) := by
  induction repos with
  | nil => intro c n _ _; rfl
  | cons r₀ rest ih =>
    intro c n hs hprop
    have hprop₀ := hprop r₀ (List.mem_cons_self _ _)
    have hproprest : ∀ r, r ∈ rest →
        classify (fetch r) ≠ StepKind.panic ∧
        ∀ t, classify (fetch r) = StepKind.tag t → lookupKV c r = some (Json.str t) :=
      fun r hr => hprop r (List.mem_cons_of_mem _ hr)
    simp only [mkItems, List.map_cons, runCycleAux, stepItem_spec]
    cases hcf : classify (fetch r₀) with
    | panic => exact absurd hcf hprop₀.1
    | skip => exact ih c n hs hproprest
    | tag t₀ =>
      have hl : lookupKV c r₀ = some (Json.str t₀) := hprop₀.2 t₀ hcf
      have heq : jsonEqStr (Json.str t₀) t₀ = true := by simp [jsonEqStr]
      have hins : insertSorted r₀ (Json.str t₀) c = c :=
        insertSorted_lookup_noop c r₀ (Json.str t₀) hs hl
      simp only [hl, heq, if_true, hins]
      exact ih c n hs hproprest

theorem str_append_empty (s : String) : s ++ "" = s := by
  cases s with
  | mk data => show String.mk (data ++ []) = String.mk data; rw [List.append_nil]

theorem str_append_assoc (a b c : String) : a ++ b ++ c = a ++ (b ++ c) := by
  cases a; cases b; cases c
  show String.mk (_ ++ _ ++ _) = String.mk (_ ++ (_ ++ _))
  rw [List.append_assoc]

theorem foldl_append_str (l : List String) :
    ∀ a : String, l.foldl (fun x y => x ++ y) a = a ++ l.foldl (fun x y => x ++ y) "" := by
  induction l with
  | nil => intro a; exact (str_append_empty a).symm
  | cons s t ih =>
    intro a
    show t.foldl _ (a ++ s) = a ++ t.foldl _ ("" ++ s)
    rw [ih (a ++ s), ih ((String.mk []) ++ s)]
    show a ++ s ++ _ = a ++ (String.mk ([] ++ s.data) ++ _)
    rw [str_append_assoc]
    rfl

/-- A single line of the notification body: the repository, then the tag
value rendered through `Display for Value` (so a string tag appears quoted
and JSON-escaped). -/
def notifyLine (p : String × Json) : String := p.1 ++ ": " ++ renderJson p.2 ++ "\n"

theorem notifyBody_join (changes : List (String × Json)) :
    notifyBody changes = String.join (changes.map notifyLine) := by
  have haux : ∀ (l : List (String × Json)) (a : String),
      l.foldl (fun content p => content ++ (p.1 ++ ": " ++ renderJson p.2 ++ "\n")) a =
      a ++ String.join (l.map notifyLine) := by
    intro l
    induction l with
    | nil => intro a; exact (str_append_empty a).symm
    | cons p t ih =>
      intro a
      show t.foldl _ (a ++ notifyLine p) = a ++ String.join (notifyLine p :: t.map notifyLine)
      rw [ih (a ++ notifyLine p)]
      show a ++ notifyLine p ++ _ = a ++ (t.map notifyLine).foldl (fun x y => x ++ y) ("" ++ notifyLine p)
      rw [foldl_append_str (t.map notifyLine) ("" ++ notifyLine p), str_append_assoc]
      show a ++ (notifyLine p ++ _) = a ++ (String.mk ([] ++ (notifyLine p).data) ++ _)
      rfl
  have h0 : notifyBody changes =
      changes.foldl (fun content p => content ++ (p.1 ++ ": " ++ renderJson p.2 ++ "\n")) "" := rfl
  rw [h0, haux changes ""]
  show String.mk ([] ++ _) = _
  rw [List.nil_append]
  rfl

/-- A response body listing exactly one release with the given tag. -/
def bodyTag (t : String) : String := "[\x7b\"tag_name\":\"" ++ t ++ "\"\x7d]"

/-- A file-system environment in which every operation succeeds. -/
def envAllOk : WriteEnv := WriteEnv.mk (some "cache") (Except.ok ()) (Except.ok ())

/-- Claim C1: for a repository with cached tag `T` whose fetch successfully
returns tag `T'`, if `T' ≠ T` the pair is recorded in the cycle's Change Set
and the cache entry becomes `T'`; if `T' = T` no Change Set entry is recorded
and the cache binding for the repository is unchanged. -/
theorem claim_C1 (items : List (String × FetchOutcome)) (c c' s' : List (String × Json))
    (r b : String) (x : Json) (xs : List Json) (T T' : String)
    (hnd : (items.map Prod.fst).Nodup)
    (hmem : (r, FetchOutcome.body b) ∈ items)
    (hparse : parseJson b = some (Json.arr (x :: xs)))
    (htag : (jsonIndex x "tag_name").asStr = some T')
    (hold : lookupKV c r = some (Json.str T))
    (hrun : runCycle c items = some (c', s')) :
    (T' ≠ T → lookupKV s' r = some (Json.str T') ∧ lookupKV c' r = some (Json.str T')) ∧
    (T' = T → lookupKV s' r = none ∧ lookupKV c' r = some (Json.str T)) := by
  have hcf : classify (FetchOutcome.body b) = StepKind.tag T' := by
    simp [classify, classifyBody, hparse, List.head?_cons, htag]
  have hmain := runCycleAux_processed items c [] c' s' r (FetchOutcome.body b) hnd hmem hrun
  rw [hcf] at hmain
  obtain ⟨hc', hs'⟩ := hmain
  refine ⟨?_, ?_⟩
  · intro hne
    have hbe : jsonEqStr (Json.str T) T' = false := by
      simp only [jsonEqStr, beq_eq_false_iff_ne, ne_eq]
      exact fun h => hne h.symm
    simp only [hold, hbe, Bool.false_eq_true, if_false] at hs'
    exact ⟨hs', hc'⟩
  · intro heq
    subst heq
    simp [hold, jsonEqStr, lookupKV] at hs'
    exact ⟨hs', hc'⟩

/-- Witness for C1 at a concrete changed tag. -/
theorem claim_C1_witness :
    lookupKV [("a/b", Json.str "v1.1")] "a/b" = some (Json.str "v1.1") ∧
    lookupKV [("a/b", Json.str "v1.1")] "a/b" = some (Json.str "v1.1") :=
  (claim_C1 [("a/b", FetchOutcome.body (bodyTag "v1.1"))]
    [("a/b", Json.str "v1.0")] [("a/b", Json.str "v1.1")] [("a/b", Json.str "v1.1")]
    "a/b" (bodyTag "v1.1") (Json.obj [("tag_name", Json.str "v1.1")]) [] "v1.0" "v1.1"
    (by simp) (by simp) (by rfl) (by rfl) (by rfl) (by rfl)).1 (by decide)

/-- Claim C2: a repository with no cache entry at cycle start has its first
observed tag inserted into the cache and never recorded in the Change Set;
and a Change Set entry exists only when a prior cache entry existed and
differs from the newly observed tag. -/
theorem claim_C2 (items : List (String × FetchOutcome)) (c c' s' : List (String × Json))
    (hnd : (items.map Prod.fst).Nodup)
    (hrun : runCycle c items = some (c', s')) :
    (∀ r b x xs T, (r, FetchOutcome.body b) ∈ items →
      parseJson b = some (Json.arr (x :: xs)) →
      (jsonIndex x "tag_name").asStr = some T →
      lookupKV c r = none →
      lookupKV c' r = some (Json.str T) ∧ lookupKV s' r = none) ∧
    (∀ r v, lookupKV s' r = some v →
      ∃ old T, lookupKV c r = some old ∧ v = Json.str T ∧ jsonEqStr old T = false) := by
  refine ⟨?_, ?_⟩
  · intro r b x xs T hmem hparse htag hold
    have hcf : classify (FetchOutcome.body b) = StepKind.tag T := by
      simp [classify, classifyBody, hparse, List.head?_cons, htag]
    have hmain := runCycleAux_processed items c [] c' s' r (FetchOutcome.body b) hnd hmem hrun
    rw [hcf] at hmain
    obtain ⟨hc', hs'⟩ := hmain
    simp only [hold, lookupKV] at hs'
    exact ⟨hc', hs'⟩
  · intro r v hv
    by_cases hr : r ∈ items.map Prod.fst
    · obtain ⟨p, hp, hpr⟩ := List.mem_map.mp hr
      have hpe : (r, p.2) = p := by
        obtain ⟨p1, p2⟩ := p
        simp only [Prod.mk.injEq]
        exact ⟨hpr.symm, trivial⟩
      have hmem : (r, p.2) ∈ items := hpe ▸ hp
      have hmain := runCycleAux_processed items c [] c' s' r p.2 hnd hmem hrun
      cases hcf : classify p.2 with
      | panic => rw [hcf] at hmain; exact absurd hmain id
      | skip =>
        rw [hcf] at hmain
        rw [hmain.2] at hv
        simp [lookupKV] at hv
      | tag t =>
        rw [hcf] at hmain
        rw [hmain.2] at hv
        cases hl : lookupKV c r with
        | none => simp only [hl, lookupKV] at hv; exact absurd hv (by simp)
        | some old =>
          simp only [hl] at hv
          cases he : jsonEqStr old t with
          | true =>
            simp only [he, if_true, lookupKV] at hv
            exact absurd hv (by simp)
          | false =>
            simp only [he, Bool.false_eq_true, if_false, Option.some.injEq] at hv
            exact ⟨old, t, rfl, hv.symm, he⟩
    · have := runCycleAux_untouched items c [] c' s' r hrun hr
      rw [this.2] at hv
      simp [lookupKV] at hv

/-- Witness for C2: a first-time repository is cached and not notified. -/
theorem claim_C2_witness :
    lookupKV [("c/d", Json.str "v0.1")] "c/d" = some (Json.str "v0.1") ∧
    lookupKV ([] : List (String × Json)) "c/d" = none :=
  (claim_C2 [("c/d", FetchOutcome.body (bodyTag "v0.1"))] [] [("c/d", Json.str "v0.1")] []
    (by simp) (by rfl)).1 "c/d" (bodyTag "v0.1") (Json.obj [("tag_name", Json.str "v0.1")]) []
    "v0.1" (by simp) (by rfl) (by rfl) (by rfl)

/-- Claim C9: a fetch whose body parses as JSON but is not a list leaves the
repository's cache binding unchanged and records no Change Set entry. -/
theorem claim_C9 (items : List (String × FetchOutcome)) (c c' s' : List (String × Json))
    (r b : String) (j : Json)
    (hnd : (items.map Prod.fst).Nodup)
    (hmem : (r, FetchOutcome.body b) ∈ items)
    (hparse : parseJson b = some j)
    (hnonlist : j.asArr = none)
    (hrun : runCycle c items = some (c', s')) :
    lookupKV c' r = lookupKV c r ∧ lookupKV s' r = none := by
  have hcf : classify (FetchOutcome.body b) = StepKind.skip := by
    cases j <;> simp_all [classify, classifyBody, Json.asArr]
  have hmain := runCycleAux_processed items c [] c' s' r (FetchOutcome.body b) hnd hmem hrun
  rw [hcf] at hmain
  exact ⟨hmain.1, by rw [hmain.2]; rfl⟩

/-- Witness for C9 at a GitHub-style error object body. -/
theorem claim_C9_witness :
    lookupKV [("e/f", Json.str "v1.0")] "e/f" = lookupKV [("e/f", Json.str "v1.0")] "e/f" ∧
    lookupKV ([] : List (String × Json)) "e/f" = none :=
  claim_C9 [("e/f", FetchOutcome.body "\x7b\"message\":\"Not Found\"\x7d")]
    [("e/f", Json.str "v1.0")] [("e/f", Json.str "v1.0")] [] "e/f"
    "\x7b\"message\":\"Not Found\"\x7d" (Json.obj [("message", Json.str "Not Found")])
    (by simp) (by simp) (by rfl) (by rfl) (by rfl)

/-- Claim C10: a body that is an empty JSON array makes the unguarded
`releases.get(0).unwrap()` panic, aborting the whole cycle, rather than
skipping the repository. -/
theorem claim_C10 (b : String) (c n : List (String × Json)) (r : String)
    (items : List (String × FetchOutcome))
    (hparse : parseJson b = some (Json.arr []))
    (hmem : (r, FetchOutcome.body b) ∈ items) :
    stepRepo c n r b = none ∧ runCycle c items = none := by
  have hcf : classifyBody b = StepKind.panic := by
    simp [classifyBody, hparse]
  constructor
  · rw [stepRepo_spec, hcf]
  · exact runCycleAux_panicElem items c [] r (FetchOutcome.body b) hmem
      (by simp [classify, hcf])

/-- Witness for C10 at the body `[]`. -/
theorem claim_C10_witness :
    stepRepo [] [] "g/h" "[]" = none ∧
    runCycle [] [("g/h", FetchOutcome.body "[]")] = none :=
  claim_C10 "[]" [] [] "g/h" [("g/h", FetchOutcome.body "[]")] (by rfl) (by simp)

/-- Claim C8: poll-cycle idempotence — a second cycle over the same upstream
state produces an empty Change Set (hence no notification) and leaves the
cache, which is what gets persisted, exactly as after the first cycle. -/
theorem claim_C8 (repos : List String) (fetch : String → FetchOutcome)
    (c c₁ s₁ : List (String × Json))
    (hs : c.Pairwise keyLt)
    (h1 : runCycle c (mkItems repos fetch) = some (c₁, s₁)) :
    runCycle c₁ (mkItems repos fetch) = some (c₁, []) ∧
    ∀ e, notifyStep [] e = some () := by
  obtain ⟨hs₁, hprop⟩ := firstCycle_tags repos fetch c [] c₁ s₁ hs h1
  exact ⟨secondCycle_id repos fetch c₁ [] hs₁ hprop, fun e => rfl⟩

/-- A fixed upstream state for the C8 witness. -/
def fetchW8 : String → FetchOutcome := fun _ => FetchOutcome.body (bodyTag "v2.2")

/-- Witness for C8 at one repository whose tag changed in the first cycle. -/
theorem claim_C8_witness :
    runCycle [("a/b", Json.str "v2.2")] (mkItems ["a/b"] fetchW8) =
      some ([("a/b", Json.str "v2.2")], []) :=
  (claim_C8 ["a/b"] fetchW8 [("a/b", Json.str "v2.1")] [("a/b", Json.str "v2.2")]
    [("a/b", Json.str "v2.2")] (by simp) (by rfl)).1

/-- Counterexample to claim C3 as stated: the content `[]` does not parse as
the expected JSON object mapping, yet loading it panics
(`json.as_object().unwrap()` on main.rs line 49) instead of yielding an
empty cache. -/
theorem claim_C3_counterexample :
    parseJson "[]" = some (Json.arr []) ∧ loadCache "[]" = none ∧
    (none : Option (List (String × Json))) ≠ some [] :=
  ⟨rfl, rfl, by simp⟩

/-- Claim C3 as amended: content that fails to parse as JSON loads as an
empty cache without crashing; content that parses as JSON yields the object's
mapping when it is an object, and panics when it is any other JSON value. -/
theorem claim_C3 (content : String) :
    (parseJson content = none → loadCache content = some []) ∧
    (∀ kvs, parseJson content = some (Json.obj kvs) → loadCache content = some kvs) ∧
    (∀ j, parseJson content = some j → j.asObj = none → loadCache content = none) := by
  refine ⟨?_, ?_, ?_⟩
  · intro h
    simp [loadCache, read_cache_file, h]
  · intro kvs h
    simp [loadCache, read_cache_file, h, Json.asObj]
  · intro j h hobj
    simp [loadCache, read_cache_file, h, hobj]

/-- Witness for the amended C3 at a non-JSON content and a non-object JSON
content. -/
theorem claim_C3_witness :
    loadCache "oops" = some [] ∧ loadCache "[1]" = none :=
  ⟨(claim_C3 "oops").1 (by rfl),
   (claim_C3 "[1]").2.2 (Json.arr [Json.num "1"]) (by rfl) (by rfl)⟩

/-- Claim C4 (code bug): `write_cache_file` opens the cache file without
truncation, so saving a mapping whose serialization is shorter than the
previous file content leaves trailing bytes of the old content; the
subsequent load fails to parse and yields the empty mapping instead of the
saved one.  Concretely: previous content `{"a/b":"v1.0.10"}`, saved cache
`{"a/b":"v2.0"}`. -/
theorem claim_C4 :
    ((saveStep envAllOk (renderJson (Json.obj [("a/b", Json.str "v1.0.10")]))
        [("a/b", Json.str "v2.0")]).bind loadCache) = some [] ∧
    ([] : List (String × Json)) ≠ [("a/b", Json.str "v2.0")] :=
  ⟨rfl, by simp⟩

/-- Counterexample to claim C5 as stated: the body line renders the tag via
`Display for Value`, which JSON-quotes it — the scenario's body is
`a/b: "v1.1"\n`, not `a/b: v1.1\n`. -/
theorem claim_C5_counterexample :
    release_notify [("a/b", Json.str "v1.1")] (Except.ok ()) =
      some (ShownNotification.mk "New release" "a/b: \"v1.1\"\n" "librewolf") ∧
    ("a/b: \"v1.1\"\n" : String) ≠ "a/b: v1.1\n" :=
  ⟨rfl, by decide⟩

/-- Claim C5 as amended: the notification body is the concatenation, one line
per changed repository, of lines `<repo>: <display>` terminated by a newline,
where `<display>` is the tag value rendered through `Display for Value`
(for a string tag: JSON-quoted and escaped). -/
theorem claim_C5 (changes : List (String × Json)) :
    notifyBody changes = String.join (changes.map notifyLine) :=
  notifyBody_join changes

/-- Counterexample to claim C6 as stated: with one changed repository and a
failing notification display, the whole loop iteration panics
(`.show().unwrap()` on main.rs lines 170–175), terminating the process
instead of being scoped to the notify step. -/
theorem claim_C6_counterexample :
    loopIter [("a/b", Json.str "v1.0")] [("a/b", FetchOutcome.body (bodyTag "v1.1"))]
      (Except.error "show failed") envAllOk "old" = none :=
  rfl

/-- Claim C6 as amended: whenever a cycle produces a non-empty Change Set and
the notification display fails, the loop iteration panics — the failure is
fatal to the process, not scoped to the notify step. -/
theorem claim_C6 (c : List (String × Json)) (items : List (String × FetchOutcome))
    (env : WriteEnv) (old e : String) (c' s' : List (String × Json))
    (hrun : runCycle c items = some (c', s'))
    (hne : s' ≠ []) :
    loopIter c items (Except.error e) env old = none := by
  cases s' with
  | nil => exact absurd rfl hne
  | cons p l =>
    simp only [loopIter, hrun]
    rfl

/-- Witness for the amended C6. -/
theorem claim_C6_witness :
    loopIter [("g/h", Json.str "v3.0")] [("g/h", FetchOutcome.body (bodyTag "v3.1"))]
      (Except.error "dbus unavailable") envAllOk "prev" = none :=
  claim_C6 [("g/h", Json.str "v3.0")] [("g/h", FetchOutcome.body (bodyTag "v3.1"))]
    envAllOk "prev" "dbus unavailable" [("g/h", Json.str "v3.1")] [("g/h", Json.str "v3.1")]
    (by rfl) (by simp)

/-- Counterexample to claim C7 as stated: a cache save whose file open fails
panics (`.open(..).unwrap()` on main.rs lines 152–156) and stops the process;
it is not merely reported. -/
theorem claim_C7_counterexample :
    loopIter [] [] (Except.ok ())
      (WriteEnv.mk (some "cache") (Except.error "EACCES") (Except.ok ())) "old" = none :=
  rfl

/-- Claim C7 as amended: when the cache directory resolves and the file opens,
a failing `write_all` is only reported and the loop continues to the next
cycle (with the file keeping its previous content); only these write errors
are tolerated — directory-resolution and open failures panic at any cycle. -/
theorem claim_C7 (c : List (String × Json)) (items : List (String × FetchOutcome))
    (sr : Except String Unit) (env : WriteEnv) (old : String)
    (c' s' : List (String × Json))
    (hdir : env.cacheDir.isSome = true)
    (hopen : env.openRes = Except.ok ())
    (hrun : runCycle c items = some (c', s'))
    (hnot : notifyStep s' sr = some ()) :
    loopIter c items sr env old =
      some (c', match env.writeRes with
        | Except.ok _ => overwriteNoTruncate old (renderJson (Json.obj c'))
        | Except.error _ => old) := by
  obtain ⟨cd, orr, wr⟩ := env
  cases cd with
  | none => simp at hdir
  | some d =>
    cases orr with
    | error e => simp at hopen
    | ok u =>
      cases u
      simp only [loopIter, hrun, hnot]
      cases wr with
      | ok u₂ => cases u₂; rfl
      | error e₂ => rfl

/-- Witness for the amended C7 at a failing `write_all`. -/
theorem claim_C7_witness :
    loopIter [] [] (Except.ok ())
      (WriteEnv.mk (some "cache") (Except.ok ()) (Except.error "disk full")) "prev" =
      some ([], "prev") :=
  claim_C7 [] [] (Except.ok ())
    (WriteEnv.mk (some "cache") (Except.ok ()) (Except.error "disk full")) "prev" [] []
    (by rfl) (by rfl) (by rfl) (by rfl)
